import Mathlib

/-!
# Verification of the `cpp-thread-pool` repository

This file gives a shallow embedding of the thread-pool implementation
(`src/thread_pool.cpp` and, where the repository only ships callers and
tests of the header `thread_pool.h`, a model of that header built from the
specification) and proves or refutes the frozen claims about it.

The embedding has three parts:

* a functional model of pool construction (`construct`, `defaultConstruct`)
  mirroring the two constructors in `thread_pool.cpp`;
* a functional model of the result-delivery pipeline (`ChannelState`,
  `runTaskWrapper`, `readHandle`) and of the two parallel algorithms
  (`ForEach`, `TransformReduce`), modelled from the specification because
  the header that implements them is not part of the excerpted sources;
* a small-step transition system (`PoolState`, `Step`, `Reachable`) for the
  worker loop and the destructor, translated line by line from the worker
  lambda in `thread_pool.cpp`.
-/

/-- Status of one worker thread, following the worker lambda in
`thread_pool.cpp`: `entry` is before the `on_thread_start` call, `idle` is
blocked in `cv_task_.wait`, `checking` is just after the wait returned
(holding the lock, about to test `tasks_.empty() && is_terminated_`),
`popped t` is after `tasks_.front(); tasks_.pop()` (still holding the lock),
`running t` is after `lock.unlock()` while `task()` runs, and `exited` is
after the `return` inside the loop. -/
inductive WStatus where
  | entry
  | idle
  | checking
  | popped (t : Nat)
  | running (t : Nat)
  | exited
  deriving DecidableEq, Repr

/-- Global state of the pool: the fields `tasks`, `is_terminated` mirror
`tasks_` and `is_terminated_` of `ThreadPool`; `lockHolder` models which
worker currently holds `m_task_`; `workers` gives each worker's status;
`startRuns`/`stopRuns` count how many times each worker has reached the
`on_thread_start`/`on_thread_stop` call sites; `enqueued`, `dequeued` and
`executed` are history variables recording task ids in the order they were
appended, popped and completed; `nextId` generates fresh task ids. -/
structure PoolState where
  num_threads : Nat
  tasks : List Nat
  is_terminated : Bool
  lockHolder : Option Nat
  workers : Nat → WStatus
  startRuns : Nat → Nat
  stopRuns : Nat → Nat
  enqueued : List Nat
  dequeued : List Nat
  executed : List Nat
  nextId : Nat

/-- The state of a freshly constructed pool with `n` workers: empty queue,
termination flag false, no lock held, every worker before its start hook. -/
def initState (n : Nat) : PoolState where
  num_threads := n
  tasks := []
  is_terminated := false
  lockHolder := none
  workers := fun _ => WStatus.entry
  startRuns := fun _ => 0
  stopRuns := fun _ => 0
  enqueued := []
  dequeued := []
  executed := []
  nextId := 0

/-- Embedding of `ThreadPool::ThreadPool(size_t, ...)`: if `num_threads == 0`
it throws `std::runtime_error("The number of threads must be larger than 0.")`
before any worker is created; otherwise it creates the initial pool state
with `num_threads` workers. -/
def construct (num_threads : Nat) : Except String PoolState :=
  if num_threads = 0 then
    Except.error "The number of threads must be larger than 0."
  else
    Except.ok (initState num_threads)

/-- Whether construction produced a pool. -/
def constructSucceeds (num_threads : Nat) : Bool :=
  match construct num_threads with
  | Except.ok _ => true
  | Except.error _ => false

/-- Embedding of the zero-argument `ThreadPool::ThreadPool(...)` delegating
constructor: it passes `std::thread::hardware_concurrency()` (taken here as
a parameter, since it is platform input) directly to the main constructor,
with no adjustment of the value. -/
def defaultConstruct (hardwareConcurrency : Nat) : Except String PoolState :=
  construct hardwareConcurrency

/-! ## Chunk partitioning and the two parallel algorithms

`thread_pool.h`, which implements `Enqueue`, `ForEach` and `TransformReduce`,
is not among the excerpted sources (only its callers and tests are), so the
definitions below are modelled from the specification, sections 4.3-4.5. -/

/-- Modelled from the spec: the chunk partitioning of `thread_pool.h`, which
is missing from the sources (spec section 4.4) — the sizes of the `k` contiguous chunks of a range of length
`n` — sizes differ by at most one and earlier chunks absorb the remainder,
so chunk `i` has size `n / k + 1` when `i < n % k` and `n / k` otherwise. -/
def chunkSizes (k n : Nat) : List Nat :=
  (List.range k).map fun i => n / k + if i < n % k then 1 else 0

/-- Split a list into consecutive pieces of the given sizes. -/
def splitBySizes {α : Type} : List Nat → List α → List (List α)
  | [], _ => []
  | s :: ss, xs => xs.take s :: splitBySizes ss (xs.drop s)

/-- Modelled from the spec: the partitioning step of the parallel algorithms
of `thread_pool.h`, which is missing from the sources (spec section 4.4) —
partition a range into `min threadCount rangeLength` contiguous,
non-overlapping chunks; the empty range yields zero chunks. -/
def partitionChunks {α : Type} (threadCount : Nat) (xs : List α) : List (List α) :=
  splitBySizes (chunkSizes (min threadCount xs.length) xs.length) xs

/-- Number of chunk tasks a parallel algorithm submits for a given range. -/
def numChunks {α : Type} (threadCount : Nat) (xs : List α) : Nat :=
  (partitionChunks threadCount xs).length

/-- Modelled from the spec: the chunk task of `TransformReduce` in
`thread_pool.h`, which is missing from the sources (spec section 4.5) — one
chunk task's local fold — folding `reduceFn` over
`transformFn element` for every element of the chunk in ascending order,
composed post-hoc, i.e. as a function of the incoming accumulator. -/
def chunkLocalFold {α β γ : Type} (transformFn : α → γ) (reduceFn : β → γ → β)
    (chunk : List α) (acc : β) : β :=
  chunk.foldl (fun a x => reduceFn a (transformFn x)) acc

/-- Modelled from the spec: `TransformReduce` of `thread_pool.h`, which is
missing from the sources (spec section 4.5) — it partitions the range, computes each chunk's
local fold, and combines the partial results sequentially in chunk index
order, folding `init` in first. -/
def TransformReduce {α β γ : Type} (threadCount : Nat) (xs : List α) (init : β)
    (transformFn : α → γ) (reduceFn : β → γ → β) : β :=
  ((partitionChunks threadCount xs).map (chunkLocalFold transformFn reduceFn)).foldl
    (fun acc g => g acc) init

/-- The sequential left fold that the spec requires `TransformReduce` to
reproduce exactly: fold `reduceFn` over `transformFn element` over the
original range, starting from `init`. -/
def seqTransformReduce {α β γ : Type} (xs : List α) (init : β)
    (transformFn : α → γ) (reduceFn : β → γ → β) : β :=
  xs.foldl (fun a x => reduceFn a (transformFn x)) init

/-- Modelled from the spec: `ForEach` of `thread_pool.h`, which is missing
from the sources (spec section 4.4) — it partitions the range, one task per chunk, each task
applying `fn` to every element of its chunk in ascending index order; the
returned list is the final contents of the caller's range. -/
def ForEach {α : Type} (threadCount : Nat) (xs : List α) (fn : α → α) : List α :=
  ((partitionChunks threadCount xs).map (fun c => c.map fn)).flatten

/-! ## The result channel and the Task wrapper (modelled from the spec) -/

/-- A Task's one-shot Result Channel: `pending` before the worker has run the
Task, then exactly one of `value` or `failure`. -/
inductive ChannelState (ε α : Type) where
  | pending
  | value (v : α)
  | failure (e : ε)
  deriving DecidableEq, Repr

/-- Modelled from the spec: the Task wrapper built by `Enqueue` in
`thread_pool.h`, which is missing from the sources (spec sections 4.2-4.3) —
running one Task body catches any
failure and writes the outcome into the Task's Result Channel; the second
component records a failure escaping into the worker loop, which never
happens. -/
def runTaskWrapper {ε α : Type} (body : Unit → Except ε α) :
    ChannelState ε α × Option ε :=
  match body () with
  | Except.ok v => (ChannelState.value v, none)
  | Except.error e => (ChannelState.failure e, none)

/-- Modelled from the spec: the argument binding of `Enqueue` in
`thread_pool.h`, which is missing from the sources (spec section 4.3) —
`Enqueue` binds the callable and its arguments into a
zero-argument closure at submission time. -/
def enqueueClosure {γ ε α : Type} (f : γ → Except ε α) (args : γ) :
    Unit → Except ε α :=
  fun _ => f args

/-- Modelled from the spec: execution of an enqueued Task, from the missing
`thread_pool.h` (spec section 4.3) — the unique worker that receives the
Task built by `Enqueue f args` executes it, producing the channel contents. -/
def executeEnqueued {γ ε α : Type} (f : γ → Except ε α) (args : γ) :
    ChannelState ε α :=
  (runTaskWrapper (enqueueClosure f args)).1

/-- Reading the handle: `none` while the channel is pending (the reader is
still blocked), otherwise the stored value or the re-raised failure. -/
def readHandle {ε α : Type} : ChannelState ε α → Option (Except ε α)
  | ChannelState.pending => none
  | ChannelState.value v => some (Except.ok v)
  | ChannelState.failure e => some (Except.error e)

/-! ## Small-step semantics of the worker loop and teardown

Translated from the worker lambda in `ThreadPool::ThreadPool` and from
`ThreadPool::~ThreadPool` in `thread_pool.cpp`. Tasks are identified by the
ids generated at submission; `Enqueue` appends under the lock and is modelled
as one atomic step, available to the main thread before teardown and to any
Task body running inside a worker (re-entrant submission). -/

/-- One atomic transition of the pool. -/
inductive Step : PoolState → PoolState → Prop where
  | enqueue (s : PoolState)
      (h_lock : s.lockHolder = none)
      (h_src : s.is_terminated = false ∨
        ∃ w t, w < s.num_threads ∧ s.workers w = WStatus.running t) :
      Step s { s with
        tasks := s.tasks ++ [s.nextId],
        enqueued := s.enqueued ++ [s.nextId],
        nextId := s.nextId + 1 }
  | setTerminate (s : PoolState)
      (h_lock : s.lockHolder = none) :
      Step s { s with is_terminated := true }
  | startHook (s : PoolState) (w : Nat)
      (hw : w < s.num_threads)
      (hpc : s.workers w = WStatus.entry) :
      Step s { s with
        workers := Function.update s.workers w WStatus.idle,
        startRuns := Function.update s.startRuns w (s.startRuns w + 1) }
  | acquire (s : PoolState) (w : Nat)
      (hw : w < s.num_threads)
      (hpc : s.workers w = WStatus.idle)
      (h_lock : s.lockHolder = none)
      (h_pred : s.tasks ≠ [] ∨ s.is_terminated = true) :
      Step s { s with
        workers := Function.update s.workers w WStatus.checking,
        lockHolder := some w }
  | exitLoop (s : PoolState) (w : Nat)
      (hw : w < s.num_threads)
      (hpc : s.workers w = WStatus.checking)
      (h_lock : s.lockHolder = some w)
      (h_empty : s.tasks = [])
      (h_term : s.is_terminated = true) :
      Step s { s with
        workers := Function.update s.workers w WStatus.exited,
        lockHolder := none }
  | popFront (s : PoolState) (w t : Nat) (rest : List Nat)
      (hw : w < s.num_threads)
      (hpc : s.workers w = WStatus.checking)
      (h_lock : s.lockHolder = some w)
      (h_not_exit : ¬(s.tasks = [] ∧ s.is_terminated = true))
      (h_queue : s.tasks = t :: rest) :
      Step s { s with
        workers := Function.update s.workers w (WStatus.popped t),
        tasks := rest,
        dequeued := s.dequeued ++ [t] }
  | releaseLock (s : PoolState) (w t : Nat)
      (hw : w < s.num_threads)
      (hpc : s.workers w = WStatus.popped t)
      (h_lock : s.lockHolder = some w) :
      Step s { s with
        workers := Function.update s.workers w (WStatus.running t),
        lockHolder := none }
  | finishTask (s : PoolState) (w t : Nat)
      (hw : w < s.num_threads)
      (hpc : s.workers w = WStatus.running t) :
      Step s { s with
        workers := Function.update s.workers w WStatus.idle,
        executed := s.executed ++ [t] }

/-- Reachability from a given initial state by zero or more steps. -/
inductive Reachable (start : PoolState) : PoolState → Prop where
  | refl : Reachable start start
  | step {s s' : PoolState} : Reachable start s → Step s s' → Reachable start s'

/-- Teardown has completed: the destructor has set the flag and joined every
worker, i.e. every worker has exited its loop. -/
def teardownComplete (s : PoolState) : Prop :=
  s.is_terminated = true ∧ ∀ w, w < s.num_threads → s.workers w = WStatus.exited

/-- The task (as a multiset) held by a worker in a given status: a worker in
`popped t` or `running t` holds `t`, every other status holds nothing. -/
def WStatus.heldTask : WStatus → Multiset Nat
  | WStatus.popped t => {t}
  | WStatus.running t => {t}
  | _ => 0

/-- The multiset of tasks currently held by some worker (popped but not yet
finished). -/
def inFlight (s : PoolState) : Multiset Nat :=
  (Finset.range s.num_threads).sum fun w => (s.workers w).heldTask

/-- The inductive invariant of the pool's transition system. -/
structure PoolInv (s : PoolState) : Prop where
  oob : ∀ w, s.num_threads ≤ w → s.workers w = WStatus.entry
  lock_iff : ∀ w, w < s.num_threads →
    ((s.workers w = WStatus.checking ∨ ∃ t, s.workers w = WStatus.popped t) ↔
      s.lockHolder = some w)
  checking_pred : ∀ w, w < s.num_threads → s.workers w = WStatus.checking →
    (s.tasks ≠ [] ∨ s.is_terminated = true)
  exited_term : ∀ w, w < s.num_threads → s.workers w = WStatus.exited →
    s.is_terminated = true
  all_exited_empty : 0 < s.num_threads →
    (∀ w, w < s.num_threads → s.workers w = WStatus.exited) → s.tasks = []
  enq_split : s.enqueued = s.dequeued ++ s.tasks
  deq_conserve : (s.dequeued : Multiset Nat) = (s.executed : Multiset Nat) + inFlight s
  stop_zero : ∀ w, s.stopRuns w = 0

/-! ## Concrete executions used to instantiate the theorems

Trace A: a one-worker pool is constructed and immediately torn down.
Trace B: a one-worker pool receives one submission and the worker carries it
to execution. -/

/-- Trace A, state 0: a freshly constructed one-worker pool. -/
def exA0 : PoolState := initState 1

/-- Trace A, state 1: the worker ran its start hook and entered the loop. -/
def exA1 : PoolState :=
  { exA0 with
    workers := Function.update exA0.workers 0 WStatus.idle,
    startRuns := Function.update exA0.startRuns 0 (exA0.startRuns 0 + 1) }

/-- Trace A, state 2: the destructor set the termination flag. -/
def exA2 : PoolState := { exA1 with is_terminated := true }

/-- Trace A, state 3: the worker woke up holding the lock. -/
def exA3 : PoolState :=
  { exA2 with
    workers := Function.update exA2.workers 0 WStatus.checking,
    lockHolder := some 0 }

/-- Trace A, state 4: the worker observed an empty queue with the flag set
and returned; teardown is complete. -/
def exA4 : PoolState :=
  { exA3 with
    workers := Function.update exA3.workers 0 WStatus.exited,
    lockHolder := none }

/-- Trace B, state 0: a freshly constructed one-worker pool. -/
def exB0 : PoolState := initState 1

/-- Trace B, state 1: the main thread enqueued task 0. -/
def exB1 : PoolState :=
  { exB0 with
    tasks := exB0.tasks ++ [exB0.nextId],
    enqueued := exB0.enqueued ++ [exB0.nextId],
    nextId := exB0.nextId + 1 }

/-- Trace B, state 2: the worker ran its start hook and entered the loop. -/
def exB2 : PoolState :=
  { exB1 with
    workers := Function.update exB1.workers 0 WStatus.idle,
    startRuns := Function.update exB1.startRuns 0 (exB1.startRuns 0 + 1) }

/-- Trace B, state 3: the worker woke up holding the lock, queue non-empty. -/
def exB3 : PoolState :=
  { exB2 with
    workers := Function.update exB2.workers 0 WStatus.checking,
    lockHolder := some 0 }

/-- Trace B, state 4: the worker popped task 0, still holding the lock. -/
def exB4 : PoolState :=
  { exB3 with
    workers := Function.update exB3.workers 0 (WStatus.popped 0),
    tasks := ([] : List Nat),
    dequeued := exB3.dequeued ++ [0] }

/-- Trace B, state 5: the worker released the lock and is executing task 0. -/
def exB5 : PoolState :=
  { exB4 with
    workers := Function.update exB4.workers 0 (WStatus.running 0),
    lockHolder := none }

/-! ## Partitioning lemmas -/

/-- The indicator summands of `chunkSizes` add up to `min r k`. -/
theorem sum_ite_range (k r : Nat) :
    ((List.range k).map fun i => if i < r then 1 else 0).sum = min r k := by
  induction k with
  | zero => simp
  | succ k ih =>
    rw [List.range_succ, List.map_append, List.sum_append, ih]
    by_cases h : k < r
    · simp only [List.map_cons, List.map_nil, List.sum_cons, List.sum_nil, if_pos h]
      omega
    · simp only [List.map_cons, List.map_nil, List.sum_cons, List.sum_nil, if_neg h]
      omega

/-- Summing a constant plus a function over `List.range`. -/
theorem sum_map_add_range (k c : Nat) (g : Nat → Nat) :
    ((List.range k).map fun i => c + g i).sum
      = k * c + ((List.range k).map g).sum := by
  induction k with
  | zero => simp
  | succ k ih =>
    rw [List.range_succ]
    simp only [List.map_append, List.sum_append, ih, List.map_cons, List.map_nil,
      List.sum_cons, List.sum_nil]
    ring

/-- For at least one chunk, the chunk sizes cover the whole range. -/
theorem chunkSizes_sum (k n : Nat) (hk : 0 < k) : (chunkSizes k n).sum = n := by
  unfold chunkSizes
  rw [sum_map_add_range, sum_ite_range]
  have h1 : n % k < k := Nat.mod_lt _ hk
  have h2 : k * (n / k) + n % k = n := Nat.div_add_mod n k
  omega

/-- Splitting by sizes that cover the list and flattening gives the list back. -/
theorem splitBySizes_flatten {α : Type} :
    ∀ (sizes : List Nat) (xs : List α), xs.length ≤ sizes.sum →
      (splitBySizes sizes xs).flatten = xs := by
  intro sizes
  induction sizes with
  | nil =>
    intro xs h
    simp only [List.sum_nil, Nat.le_zero, List.length_eq_zero] at h
    subst h
    rfl
  | cons s ss ih =>
    intro xs h
    simp only [splitBySizes, List.flatten_cons]
    rw [ih (xs.drop s) (by simp only [List.length_drop, List.sum_cons] at h ⊢; omega)]
    exact List.take_append_drop s xs

/-- Partitioning with a positive thread count and flattening restores the range. -/
theorem partitionChunks_flatten {α : Type} (tc : Nat) (xs : List α) (htc : 0 < tc) :
    (partitionChunks tc xs).flatten = xs := by
  unfold partitionChunks
  rcases Nat.eq_zero_or_pos xs.length with h0 | hpos
  · have hx : xs = [] := List.length_eq_zero.mp h0
    subst hx
    simp [chunkSizes, splitBySizes]
  · have hk : 0 < min tc xs.length := by omega
    exact splitBySizes_flatten _ _ (by rw [chunkSizes_sum _ _ hk])

/-- Sequentially applying the chunk-local folds in chunk order is the left
fold over the concatenation of the chunks. -/
theorem foldl_map_chunkLocalFold {α β γ : Type} (t : α → γ) (r : β → γ → β) :
    ∀ (chunks : List (List α)) (acc : β),
      (chunks.map (chunkLocalFold t r)).foldl (fun a g => g a) acc
        = chunkLocalFold t r chunks.flatten acc := by
  intro chunks
  induction chunks with
  | nil => intro acc; rfl
  | cons c cs ih =>
    intro acc
    simp only [List.map_cons, List.foldl_cons, List.flatten_cons]
    rw [ih]
    unfold chunkLocalFold
    rw [List.foldl_append]

/-- Flattening chunkwise-mapped chunks is mapping over the flattened range. -/
theorem flatten_map_map {α β : Type} (f : α → β) :
    ∀ L : List (List α), (L.map fun c => c.map f).flatten = L.flatten.map f := by
  intro L
  induction L with
  | nil => rfl
  | cons c cs ih =>
    simp only [List.map_cons, List.flatten_cons, List.map_append, ih]

/-! ## Claims about the parallel algorithms -/

/-- C1: for every range, initial accumulator, transform and reduce function
(no commutativity or associativity assumed), `TransformReduce` returns
exactly the value of the sequential left fold of `reduceFn` over
`transformFn element` starting from `init` over the original range, and on
the empty range it returns `init` unchanged. -/
theorem c1_transformReduce_eq_sequential_fold {α β γ : Type} (threadCount : Nat)
    (xs : List α) (init : β) (transformFn : α → γ) (reduceFn : β → γ → β)
    (htc : 0 < threadCount) :
    TransformReduce threadCount xs init transformFn reduceFn
      = seqTransformReduce xs init transformFn reduceFn
    ∧ TransformReduce threadCount ([] : List α) init transformFn reduceFn = init := by
  constructor
  · unfold TransformReduce seqTransformReduce
    rw [foldl_map_chunkLocalFold, partitionChunks_flatten _ _ htc]
    rfl
  · simp [TransformReduce, partitionChunks, chunkSizes, splitBySizes]

/-- Witness for C1 at the spec's own non-commutative example: ordered string
concatenation over `["hello", "world", "cpp"]` with two chunks. -/
theorem c1_witness :
    TransformReduce 2 ["hello", "world", "cpp"] "" (fun s => s ++ " ")
      (fun acc v => acc ++ v) = "hello world cpp " :=
  (c1_transformReduce_eq_sequential_fold 2 ["hello", "world", "cpp"] ""
    (fun s => s ++ " ") (fun acc v => acc ++ v) (by decide)).1.trans (by decide)

/-- C7: `ForEach` applies `fn` exactly once to each element of the range
(chunk tasks in ascending index order over a partition of the range), and
on the empty range it submits zero chunks and changes nothing. -/
theorem c7_forEach_maps_each_element_once {α : Type} (threadCount : Nat)
    (xs : List α) (fn : α → α) (htc : 0 < threadCount) :
    ForEach threadCount xs fn = xs.map fn
    ∧ numChunks threadCount ([] : List α) = 0
    ∧ ForEach threadCount ([] : List α) fn = [] := by
  refine ⟨?_, ?_, ?_⟩
  · unfold ForEach
    rw [flatten_map_map, partitionChunks_flatten _ _ htc]
  · simp [numChunks, partitionChunks, chunkSizes, splitBySizes]
  · simp [ForEach, partitionChunks, chunkSizes, splitBySizes]

/-- Witness for C7 at the spec's example: doubling `[1, 2, 3, 4, 5]`. -/
theorem c7_witness :
    ForEach 2 [1, 2, 3, 4, 5] (fun n => n * 2) = [2, 4, 6, 8, 10] :=
  (c7_forEach_maps_each_element_once 2 [1, 2, 3, 4, 5] (fun n => n * 2)
    (by decide)).1.trans (by decide)

/-! ## Claims about submission and result delivery -/

/-- C2: for every deterministic callable `f` and argument `args`, enqueueing
`f` with `args` and reading the returned handle after the task has run
yields exactly `f args`, the same value as calling `f` directly; while the
channel is still pending the read yields nothing (the reader blocks). -/
theorem c2_enqueue_read_eq_direct_call {γ α ε : Type} (f : γ → α) (args : γ) :
    readHandle (executeEnqueued (fun a => (Except.ok (f a) : Except ε α)) args)
      = some (Except.ok (f args))
    ∧ readHandle (ChannelState.pending : ChannelState ε α) = none :=
  ⟨rfl, rfl⟩

/-- C3: a callable that raises failure `e` has that same failure captured by
the Task wrapper, stored in the Result Channel, and re-raised to the handle
reader; nothing escapes into the worker loop, and the read is defined (no
crash or hang). -/
theorem c3_failure_captured_and_reraised {ε α : Type} (body : Unit → Except ε α)
    (e : ε) (h : body () = Except.error e) :
    (runTaskWrapper body).1 = ChannelState.failure e
    ∧ (runTaskWrapper body).2 = none
    ∧ readHandle (runTaskWrapper body).1 = some (Except.error e) := by
  unfold runTaskWrapper
  rw [h]
  exact ⟨rfl, rfl, rfl⟩

/-- Witness for C3 at a concrete throwing task. -/
theorem c3_witness :
    (fun _ => (Except.error "Test Exception" : Except String Nat)) ()
      = Except.error "Test Exception"
    ∧ readHandle (runTaskWrapper
        (fun _ => (Except.error "Test Exception" : Except String Nat))).1
      = some (Except.error "Test Exception") :=
  ⟨rfl, (c3_failure_captured_and_reraised
    (fun _ => (Except.error "Test Exception" : Except String Nat))
    "Test Exception" rfl).2.2⟩

/-! ## Claims about construction -/

/-- C5: constructing a pool with `threadCount = 0` always fails, with the
invalid-thread-count error surfaced synchronously to the constructor caller;
no pool state is created and no worker is spawned. -/
theorem c5_zero_threads_construction_fails :
    construct 0 = Except.error "The number of threads must be larger than 0."
    ∧ constructSucceeds 0 = false :=
  ⟨rfl, rfl⟩

/-- Counterexample for C8: when the platform reports hardware concurrency 0
(unknown), default construction does not fall back to 1 worker — it fails
with the zero-thread-count error. -/
theorem c8_counterexample :
    defaultConstruct 0 = Except.error "The number of threads must be larger than 0."
    ∧ constructSucceeds 0 = false :=
  ⟨rfl, rfl⟩

/-- C8 (amended): the zero-argument constructor passes the platform's
reported hardware concurrency to the main constructor unchanged: a positive
report constructs that many workers, but a report of 0 (unknown) makes
construction fail — there is no fallback to 1. -/
theorem c8_default_constructor_no_fallback (hardwareConcurrency : Nat) :
    (hardwareConcurrency = 0 →
      defaultConstruct hardwareConcurrency
        = Except.error "The number of threads must be larger than 0.")
    ∧ (0 < hardwareConcurrency →
      defaultConstruct hardwareConcurrency
        = Except.ok (initState hardwareConcurrency)) := by
  constructor
  · intro h
    subst h
    rfl
  · intro h
    simp [defaultConstruct, construct, Nat.pos_iff_ne_zero.mp h]

/-- Witness for the amended C8 at hardware concurrency 4. -/
theorem c8_witness : 0 < 4 ∧ defaultConstruct 4 = Except.ok (initState 4) :=
  ⟨by decide, (c8_default_constructor_no_fallback 4).2 (by decide)⟩

/-! ## Invariant machinery for the transition system -/

/-- Splitting the in-flight sum at one worker index. -/
theorem sum_heldTask_split (n w : Nat) (f : Nat → WStatus) (hw : w < n) :
    ((Finset.range n).sum fun x => (f x).heldTask)
      = (f w).heldTask + ((Finset.range n).erase w).sum fun x => (f x).heldTask :=
  (Finset.add_sum_erase _ _ (Finset.mem_range.mpr hw)).symm

/-- The in-flight sum after updating one worker's status. -/
theorem sum_heldTask_update (n w : Nat) (f : Nat → WStatus) (hw : w < n)
    (v : WStatus) :
    ((Finset.range n).sum fun x => (Function.update f w v x).heldTask)
      = v.heldTask + ((Finset.range n).erase w).sum fun x => (f x).heldTask := by
  rw [sum_heldTask_split n w _ hw, Function.update_same]
  congr 1
  apply Finset.sum_congr rfl
  intro x hx
  rw [Function.update_noteq (Finset.mem_erase.mp hx).1]

/-- Updating one worker to a status holding the same task multiset leaves the
in-flight sum unchanged. -/
theorem sum_heldTask_update_eq (n w : Nat) (f : Nat → WStatus) (hw : w < n)
    (v : WStatus) (hsame : v.heldTask = (f w).heldTask) :
    ((Finset.range n).sum fun x => (Function.update f w v x).heldTask)
      = (Finset.range n).sum fun x => (f x).heldTask := by
  rw [sum_heldTask_update n w f hw, hsame, ← sum_heldTask_split n w f hw]

/-- The initial state satisfies the pool invariant. -/
theorem initState_poolInv (n : Nat) : PoolInv (initState n) := by
  refine ⟨?_, ?_, ?_, ?_, ?_, ?_, ?_, ?_⟩
  · intro w hw
    rfl
  · intro w hw
    simp [initState]
  · intro w hw h
    simp [initState] at h
  · intro w hw h
    simp [initState] at h
  · intro hn hall
    rfl
  · rfl
  · simp [initState, inFlight, WStatus.heldTask]
  · intro w
    rfl

/-- Every step of the pool preserves the invariant. -/
theorem step_preserves_poolInv {s s' : PoolState} (hs : PoolInv s)
    (hstep : Step s s') : PoolInv s' := by
  cases hstep with
  | enqueue h_lock h_src =>
    refine ⟨hs.oob, hs.lock_iff, ?_, hs.exited_term, ?_, ?_, hs.deq_conserve,
      hs.stop_zero⟩
    · intro x hx hc
      exact Or.inl (by simp)
    · intro hn hall
      exfalso
      rcases h_src with hterm | ⟨w, t, hw, hrun⟩
      · rw [hs.exited_term 0 hn (hall 0 hn)] at hterm
        simp at hterm
      · have hx := hall w hw
        rw [hrun] at hx
        simp at hx
    · show s.enqueued ++ [s.nextId] = s.dequeued ++ (s.tasks ++ [s.nextId])
      rw [hs.enq_split, List.append_assoc]
  | setTerminate h_lock =>
    refine ⟨hs.oob, hs.lock_iff, ?_, ?_, ?_, hs.enq_split, hs.deq_conserve,
      hs.stop_zero⟩
    · intro x hx hc
      exact Or.inr rfl
    · intro x hx h
      rfl
    · intro hn hall
      exact hs.all_exited_empty hn hall
  | startHook w hw hpc =>
    refine ⟨?_, ?_, ?_, ?_, ?_, hs.enq_split, ?_, hs.stop_zero⟩
    · intro x hx
      have hx2 : s.num_threads ≤ x := hx
      show Function.update s.workers w WStatus.idle x = WStatus.entry
      rw [Function.update_noteq (by omega)]
      exact hs.oob x hx2
    · intro x hx
      show (Function.update s.workers w WStatus.idle x = WStatus.checking ∨
          ∃ t, Function.update s.workers w WStatus.idle x = WStatus.popped t) ↔
        s.lockHolder = some x
      rcases eq_or_ne x w with rfl | hxw
      · rw [Function.update_same]
        apply iff_of_false
        · rintro (h | ⟨t, h⟩) <;> simp at h
        · intro h
          rcases (hs.lock_iff x hx).mpr h with h2 | ⟨t, h2⟩ <;>
            rw [hpc] at h2 <;> simp at h2
      · rw [Function.update_noteq hxw]
        exact hs.lock_iff x hx
    · intro x hx hc
      have hc2 : Function.update s.workers w WStatus.idle x = WStatus.checking := hc
      show s.tasks ≠ [] ∨ s.is_terminated = true
      rcases eq_or_ne x w with rfl | hxw
      · rw [Function.update_same] at hc2
        simp at hc2
      · rw [Function.update_noteq hxw] at hc2
        exact hs.checking_pred x hx hc2
    · intro x hx h
      have h2 : Function.update s.workers w WStatus.idle x = WStatus.exited := h
      show s.is_terminated = true
      rcases eq_or_ne x w with rfl | hxw
      · rw [Function.update_same] at h2
        simp at h2
      · rw [Function.update_noteq hxw] at h2
        exact hs.exited_term x hx h2
    · intro hn hall
      have h1 : Function.update s.workers w WStatus.idle w = WStatus.exited :=
        hall w hw
      rw [Function.update_same] at h1
      simp at h1
    · show (s.dequeued : Multiset Nat) = ↑s.executed +
        ((Finset.range s.num_threads).sum fun x =>
          (Function.update s.workers w WStatus.idle x).heldTask)
      rw [sum_heldTask_update_eq s.num_threads w s.workers hw _ (by rw [hpc]; rfl)]
      exact hs.deq_conserve
  | acquire w hw hpc h_lock h_pred =>
    refine ⟨?_, ?_, ?_, ?_, ?_, hs.enq_split, ?_, hs.stop_zero⟩
    · intro x hx
      have hx2 : s.num_threads ≤ x := hx
      show Function.update s.workers w WStatus.checking x = WStatus.entry
      rw [Function.update_noteq (by omega)]
      exact hs.oob x hx2
    · intro x hx
      show (Function.update s.workers w WStatus.checking x = WStatus.checking ∨
          ∃ t, Function.update s.workers w WStatus.checking x = WStatus.popped t) ↔
        some w = some x
      rcases eq_or_ne x w with rfl | hxw
      · rw [Function.update_same]
        exact iff_of_true (Or.inl rfl) rfl
      · rw [Function.update_noteq hxw]
        apply iff_of_false
        · intro hcp
          have h2 := (hs.lock_iff x hx).mp hcp
          rw [h_lock] at h2
          simp at h2
        · intro h
          exact hxw (Option.some.inj h).symm
    · intro x hx hc
      show s.tasks ≠ [] ∨ s.is_terminated = true
      exact h_pred
    · intro x hx h
      have h2 : Function.update s.workers w WStatus.checking x = WStatus.exited := h
      show s.is_terminated = true
      rcases eq_or_ne x w with rfl | hxw
      · rw [Function.update_same] at h2
        simp at h2
      · rw [Function.update_noteq hxw] at h2
        exact hs.exited_term x hx h2
    · intro hn hall
      have h1 : Function.update s.workers w WStatus.checking w = WStatus.exited :=
        hall w hw
      rw [Function.update_same] at h1
      simp at h1
    · show (s.dequeued : Multiset Nat) = ↑s.executed +
        ((Finset.range s.num_threads).sum fun x =>
          (Function.update s.workers w WStatus.checking x).heldTask)
      rw [sum_heldTask_update_eq s.num_threads w s.workers hw _ (by rw [hpc]; rfl)]
      exact hs.deq_conserve
  | exitLoop w hw hpc h_lock h_empty h_term =>
    refine ⟨?_, ?_, ?_, ?_, ?_, hs.enq_split, ?_, hs.stop_zero⟩
    · intro x hx
      have hx2 : s.num_threads ≤ x := hx
      show Function.update s.workers w WStatus.exited x = WStatus.entry
      rw [Function.update_noteq (by omega)]
      exact hs.oob x hx2
    · intro x hx
      show (Function.update s.workers w WStatus.exited x = WStatus.checking ∨
          ∃ t, Function.update s.workers w WStatus.exited x = WStatus.popped t) ↔
        none = some x
      apply iff_of_false
      · rcases eq_or_ne x w with rfl | hxw
        · rw [Function.update_same]
          rintro (h | ⟨t, h⟩) <;> simp at h
        · rw [Function.update_noteq hxw]
          intro hcp
          have h2 := (hs.lock_iff x hx).mp hcp
          rw [h_lock] at h2
          exact hxw (Option.some.inj h2).symm
      · intro h
        simp at h
    · intro x hx hc
      have hc2 : Function.update s.workers w WStatus.exited x = WStatus.checking := hc
      show s.tasks ≠ [] ∨ s.is_terminated = true
      rcases eq_or_ne x w with rfl | hxw
      · rw [Function.update_same] at hc2
        simp at hc2
      · rw [Function.update_noteq hxw] at hc2
        exact hs.checking_pred x hx hc2
    · intro x hx h
      exact h_term
    · intro hn hall
      exact h_empty
    · show (s.dequeued : Multiset Nat) = ↑s.executed +
        ((Finset.range s.num_threads).sum fun x =>
          (Function.update s.workers w WStatus.exited x).heldTask)
      rw [sum_heldTask_update_eq s.num_threads w s.workers hw _ (by rw [hpc]; rfl)]
      exact hs.deq_conserve
  | popFront w t rest hw hpc h_lock h_not_exit h_queue =>
    refine ⟨?_, ?_, ?_, ?_, ?_, ?_, ?_, hs.stop_zero⟩
    · intro x hx
      have hx2 : s.num_threads ≤ x := hx
      show Function.update s.workers w (WStatus.popped t) x = WStatus.entry
      rw [Function.update_noteq (by omega)]
      exact hs.oob x hx2
    · intro x hx
      show (Function.update s.workers w (WStatus.popped t) x = WStatus.checking ∨
          ∃ t2, Function.update s.workers w (WStatus.popped t) x = WStatus.popped t2) ↔
        s.lockHolder = some x
      rcases eq_or_ne x w with rfl | hxw
      · rw [Function.update_same]
        exact iff_of_true (Or.inr ⟨t, rfl⟩) h_lock
      · rw [Function.update_noteq hxw]
        exact hs.lock_iff x hx
    · intro x hx hc
      have hc2 : Function.update s.workers w (WStatus.popped t) x = WStatus.checking := hc
      rcases eq_or_ne x w with rfl | hxw
      · rw [Function.update_same] at hc2
        simp at hc2
      · rw [Function.update_noteq hxw] at hc2
        exfalso
        have h2 := (hs.lock_iff x hx).mp (Or.inl hc2)
        rw [h_lock] at h2
        exact hxw (Option.some.inj h2).symm
    · intro x hx h
      have h2 : Function.update s.workers w (WStatus.popped t) x = WStatus.exited := h
      show s.is_terminated = true
      rcases eq_or_ne x w with rfl | hxw
      · rw [Function.update_same] at h2
        simp at h2
      · rw [Function.update_noteq hxw] at h2
        exact hs.exited_term x hx h2
    · intro hn hall
      have h1 : Function.update s.workers w (WStatus.popped t) w = WStatus.exited :=
        hall w hw
      rw [Function.update_same] at h1
      simp at h1
    · show s.enqueued = (s.dequeued ++ [t]) ++ rest
      rw [hs.enq_split, h_queue]
      simp
    · show ((s.dequeued ++ [t] : List Nat) : Multiset Nat) = ↑s.executed +
        ((Finset.range s.num_threads).sum fun x =>
          (Function.update s.workers w (WStatus.popped t) x).heldTask)
      rw [sum_heldTask_update s.num_threads w s.workers hw]
      have hB : ((Finset.range s.num_threads).erase w).sum
          (fun x => (s.workers x).heldTask) = inFlight s := by
        have h0 : inFlight s = (s.workers w).heldTask +
            ((Finset.range s.num_threads).erase w).sum
              (fun x => (s.workers x).heldTask) :=
          sum_heldTask_split s.num_threads w s.workers hw
        rw [h0, hpc]
        simp [WStatus.heldTask]
      rw [hB]
      have hD : ((s.dequeued ++ [t] : List Nat) : Multiset Nat)
          = ↑s.dequeued + {t} := by
        simp [← Multiset.coe_add]
      rw [hD, hs.deq_conserve]
      simp only [WStatus.heldTask]
      abel
  | releaseLock w t hw hpc h_lock =>
    refine ⟨?_, ?_, ?_, ?_, ?_, hs.enq_split, ?_, hs.stop_zero⟩
    · intro x hx
      have hx2 : s.num_threads ≤ x := hx
      show Function.update s.workers w (WStatus.running t) x = WStatus.entry
      rw [Function.update_noteq (by omega)]
      exact hs.oob x hx2
    · intro x hx
      show (Function.update s.workers w (WStatus.running t) x = WStatus.checking ∨
          ∃ t2, Function.update s.workers w (WStatus.running t) x = WStatus.popped t2) ↔
        none = some x
      apply iff_of_false
      · rcases eq_or_ne x w with rfl | hxw
        · rw [Function.update_same]
          rintro (h | ⟨t2, h⟩) <;> simp at h
        · rw [Function.update_noteq hxw]
          intro hcp
          have h2 := (hs.lock_iff x hx).mp hcp
          rw [h_lock] at h2
          exact hxw (Option.some.inj h2).symm
      · intro h
        simp at h
    · intro x hx hc
      have hc2 : Function.update s.workers w (WStatus.running t) x = WStatus.checking := hc
      show s.tasks ≠ [] ∨ s.is_terminated = true
      rcases eq_or_ne x w with rfl | hxw
      · rw [Function.update_same] at hc2
        simp at hc2
      · rw [Function.update_noteq hxw] at hc2
        exact hs.checking_pred x hx hc2
    · intro x hx h
      have h2 : Function.update s.workers w (WStatus.running t) x = WStatus.exited := h
      show s.is_terminated = true
      rcases eq_or_ne x w with rfl | hxw
      · rw [Function.update_same] at h2
        simp at h2
      · rw [Function.update_noteq hxw] at h2
        exact hs.exited_term x hx h2
    · intro hn hall
      have h1 : Function.update s.workers w (WStatus.running t) w = WStatus.exited :=
        hall w hw
      rw [Function.update_same] at h1
      simp at h1
    · show (s.dequeued : Multiset Nat) = ↑s.executed +
        ((Finset.range s.num_threads).sum fun x =>
          (Function.update s.workers w (WStatus.running t) x).heldTask)
      rw [sum_heldTask_update_eq s.num_threads w s.workers hw _ (by rw [hpc]; rfl)]
      exact hs.deq_conserve
  | finishTask w t hw hpc =>
    refine ⟨?_, ?_, ?_, ?_, ?_, hs.enq_split, ?_, hs.stop_zero⟩
    · intro x hx
      have hx2 : s.num_threads ≤ x := hx
      show Function.update s.workers w WStatus.idle x = WStatus.entry
      rw [Function.update_noteq (by omega)]
      exact hs.oob x hx2
    · intro x hx
      show (Function.update s.workers w WStatus.idle x = WStatus.checking ∨
          ∃ t2, Function.update s.workers w WStatus.idle x = WStatus.popped t2) ↔
        s.lockHolder = some x
      rcases eq_or_ne x w with rfl | hxw
      · rw [Function.update_same]
        apply iff_of_false
        · rintro (h | ⟨t2, h⟩) <;> simp at h
        · intro h
          rcases (hs.lock_iff x hx).mpr h with h2 | ⟨t2, h2⟩ <;>
            rw [hpc] at h2 <;> simp at h2
      · rw [Function.update_noteq hxw]
        exact hs.lock_iff x hx
    · intro x hx hc
      have hc2 : Function.update s.workers w WStatus.idle x = WStatus.checking := hc
      show s.tasks ≠ [] ∨ s.is_terminated = true
      rcases eq_or_ne x w with rfl | hxw
      · rw [Function.update_same] at hc2
        simp at hc2
      · rw [Function.update_noteq hxw] at hc2
        exact hs.checking_pred x hx hc2
    · intro x hx h
      have h2 : Function.update s.workers w WStatus.idle x = WStatus.exited := h
      show s.is_terminated = true
      rcases eq_or_ne x w with rfl | hxw
      · rw [Function.update_same] at h2
        simp at h2
      · rw [Function.update_noteq hxw] at h2
        exact hs.exited_term x hx h2
    · intro hn hall
      have h1 : Function.update s.workers w WStatus.idle w = WStatus.exited :=
        hall w hw
      rw [Function.update_same] at h1
      simp at h1
    · show (s.dequeued : Multiset Nat) =
        ((s.executed ++ [t] : List Nat) : Multiset Nat) +
        ((Finset.range s.num_threads).sum fun x =>
          (Function.update s.workers w WStatus.idle x).heldTask)
      rw [sum_heldTask_update s.num_threads w s.workers hw]
      have hB : inFlight s = (WStatus.running t).heldTask +
          ((Finset.range s.num_threads).erase w).sum
            (fun x => (s.workers x).heldTask) := by
        have h0 : inFlight s = (s.workers w).heldTask +
            ((Finset.range s.num_threads).erase w).sum
              (fun x => (s.workers x).heldTask) :=
          sum_heldTask_split s.num_threads w s.workers hw
        rw [h0, hpc]
      rw [hs.deq_conserve, hB]
      have hD : ((s.executed ++ [t] : List Nat) : Multiset Nat)
          = ↑s.executed + {t} := by
        simp [← Multiset.coe_add]
      rw [hD]
      simp only [WStatus.heldTask]
      abel

/-- Every state reachable from a fresh pool satisfies the invariant. -/
theorem reachable_poolInv {n : Nat} {s : PoolState}
    (h : Reachable (initState n) s) : PoolInv s := by
  induction h with
  | refl => exact initState_poolInv n
  | step hr hstep ih => exact step_preserves_poolInv ih hstep

/-- The worker count never changes after construction. -/
theorem reachable_num_threads {n : Nat} {s : PoolState}
    (h : Reachable (initState n) s) : s.num_threads = n := by
  induction h with
  | refl => rfl
  | step hr hstep ih =>
    cases hstep <;> exact ih

/-! ## Claims about the worker loop and teardown -/

/-- C4: in every reachable execution, a worker becomes `exited` only from a
state in which the Termination Flag is set and the Task Queue is empty; and
once teardown has completed (flag set, all workers joined), the queue is
empty and every task ever enqueued has been executed — teardown drops no
pending task. -/
theorem c4_exit_only_after_drain {n : Nat} {s : PoolState}
    (hn : 0 < n) (hr : Reachable (initState n) s) :
    (∀ s' w, Step s s' → s.workers w ≠ WStatus.exited →
      s'.workers w = WStatus.exited → s.is_terminated = true ∧ s.tasks = [])
    ∧ (teardownComplete s → s.tasks = [] ∧ ∀ t ∈ s.enqueued, t ∈ s.executed) := by
  have hinv := reachable_poolInv hr
  have hnum := reachable_num_threads hr
  constructor
  · intro s' w hstep hne hex
    cases hstep with
    | enqueue h_lock h_src => exact absurd hex hne
    | setTerminate h_lock => exact absurd hex hne
    | startHook w2 hw2 hpc =>
      have hex2 : Function.update s.workers w2 WStatus.idle w = WStatus.exited := hex
      rcases eq_or_ne w w2 with rfl | hww
      · rw [Function.update_same] at hex2
        simp at hex2
      · rw [Function.update_noteq hww] at hex2
        exact absurd hex2 hne
    | acquire w2 hw2 hpc h_lock h_pred =>
      have hex2 : Function.update s.workers w2 WStatus.checking w = WStatus.exited := hex
      rcases eq_or_ne w w2 with rfl | hww
      · rw [Function.update_same] at hex2
        simp at hex2
      · rw [Function.update_noteq hww] at hex2
        exact absurd hex2 hne
    | exitLoop w2 hw2 hpc h_lock h_empty h_term => exact ⟨h_term, h_empty⟩
    | popFront w2 t rest hw2 hpc h_lock h_not_exit h_queue =>
      have hex2 : Function.update s.workers w2 (WStatus.popped t) w = WStatus.exited := hex
      rcases eq_or_ne w w2 with rfl | hww
      · rw [Function.update_same] at hex2
        simp at hex2
      · rw [Function.update_noteq hww] at hex2
        exact absurd hex2 hne
    | releaseLock w2 t hw2 hpc h_lock =>
      have hex2 : Function.update s.workers w2 (WStatus.running t) w = WStatus.exited := hex
      rcases eq_or_ne w w2 with rfl | hww
      · rw [Function.update_same] at hex2
        simp at hex2
      · rw [Function.update_noteq hww] at hex2
        exact absurd hex2 hne
    | finishTask w2 t hw2 hpc =>
      have hex2 : Function.update s.workers w2 WStatus.idle w = WStatus.exited := hex
      rcases eq_or_ne w w2 with rfl | hww
      · rw [Function.update_same] at hex2
        simp at hex2
      · rw [Function.update_noteq hww] at hex2
        exact absurd hex2 hne
  · rintro ⟨hterm, hall⟩
    have hempty : s.tasks = [] :=
      hinv.all_exited_empty (by omega) hall
    refine ⟨hempty, ?_⟩
    intro t ht
    have h1 : s.enqueued = s.dequeued := by
      rw [hinv.enq_split, hempty, List.append_nil]
    have h2 : inFlight s = 0 := by
      apply Finset.sum_eq_zero
      intro x hx
      rw [hall x (Finset.mem_range.mp hx)]
      rfl
    have h3 : (s.dequeued : Multiset Nat) = ↑s.executed := by
      rw [hinv.deq_conserve, h2, add_zero]
    rw [h1] at ht
    have h4 : t ∈ (s.dequeued : Multiset Nat) := Multiset.mem_coe.mpr ht
    rw [h3] at h4
    exact Multiset.mem_coe.mp h4

/-- C6: in every reachable state, a worker that is executing a Task's body
does not hold the pool's shared lock: the lock is released before the Task
is invoked. -/
theorem c6_execution_never_holds_lock {n : Nat} {s : PoolState} (w t : Nat)
    (hr : Reachable (initState n) s) (hrun : s.workers w = WStatus.running t) :
    s.lockHolder ≠ some w := by
  have hinv := reachable_poolInv hr
  intro hlock
  by_cases hw : w < s.num_threads
  · rcases (hinv.lock_iff w hw).mpr hlock with h | ⟨t2, h⟩ <;>
      rw [hrun] at h <;> simp at h
  · have h := hinv.oob w (le_of_not_lt hw)
    rw [hrun] at h
    simp at h

/-- C10: in every reachable state, a worker that has passed the wait and is
about to take the pop branch (it is at the check with the exit condition
false) sees a non-empty queue — the front/pop on an empty queue is
unreachable. -/
theorem c10_pop_branch_queue_nonempty {n : Nat} {s : PoolState} (w : Nat)
    (hr : Reachable (initState n) s)
    (hchk : s.workers w = WStatus.checking)
    (hnx : ¬(s.tasks = [] ∧ s.is_terminated = true)) :
    s.tasks ≠ [] := by
  have hinv := reachable_poolInv hr
  by_cases hw : w < s.num_threads
  · rcases hinv.checking_pred w hw hchk with h | h
    · exact h
    · intro hnil
      exact hnx ⟨hnil, h⟩
  · have h := hinv.oob w (le_of_not_lt hw)
    rw [hchk] at h
    simp at h

/-! ## Concrete runs of the transition system -/

/-- Trace A reaches its final state: construct, run the start hook, set the
termination flag, wake the worker, observe empty-and-terminated, exit. -/
theorem reachA : Reachable (initState 1) exA4 := by
  have s1 : Step exA0 exA1 := Step.startHook exA0 0 (by decide) rfl
  have s2 : Step exA1 exA2 := Step.setTerminate exA1 rfl
  have s3 : Step exA2 exA3 := Step.acquire exA2 0 (by decide) rfl rfl (Or.inr rfl)
  have s4 : Step exA3 exA4 := Step.exitLoop exA3 0 (by decide) rfl rfl rfl rfl
  exact Reachable.step (Reachable.step (Reachable.step
    (Reachable.step Reachable.refl s1) s2) s3) s4

/-- In trace A's final state, teardown has completed. -/
theorem teardownA : teardownComplete exA4 := by
  constructor
  · rfl
  · intro w hw
    have hw0 : w = 0 := by
      have hw2 : w < 1 := hw
      omega
    subst hw0
    rfl

/-- Trace B reaches the state where the worker is executing task 0. -/
theorem reachB5 : Reachable (initState 1) exB5 := by
  have s1 : Step exB0 exB1 := Step.enqueue exB0 rfl (Or.inl rfl)
  have s2 : Step exB1 exB2 := Step.startHook exB1 0 (by decide) rfl
  have s3 : Step exB2 exB3 :=
    Step.acquire exB2 0 (by decide) rfl rfl (Or.inl (by decide))
  have s4 : Step exB3 exB4 :=
    Step.popFront exB3 0 0 [] (by decide) rfl rfl (by simp [exB3, exB2, exB1, exB0, initState]) rfl
  have s5 : Step exB4 exB5 := Step.releaseLock exB4 0 0 (by decide) rfl rfl
  exact Reachable.step (Reachable.step (Reachable.step (Reachable.step
    (Reachable.step Reachable.refl s1) s2) s3) s4) s5

/-- Trace B reaches the state where the worker holds the lock at the check
with a non-empty queue. -/
theorem reachB3 : Reachable (initState 1) exB3 := by
  have s1 : Step exB0 exB1 := Step.enqueue exB0 rfl (Or.inl rfl)
  have s2 : Step exB1 exB2 := Step.startHook exB1 0 (by decide) rfl
  have s3 : Step exB2 exB3 :=
    Step.acquire exB2 0 (by decide) rfl rfl (Or.inl (by decide))
  exact Reachable.step (Reachable.step (Reachable.step Reachable.refl s1) s2) s3

/-! ## Remaining claim theorems and witnesses -/

/-- C9: the stop hook is never invoked — the `on_thread_stop` call sits after
the `while (true)` loop in the worker lambda, and the loop is only ever left
by `return`, so the call site is dead code. Concretely: after a complete
teardown of a one-worker pool, the worker has exited its loop but the stop
hook has run 0 times, not once as claimed. -/
theorem c9_stop_hook_never_runs :
    teardownComplete exA4
    ∧ exA4.workers 0 = WStatus.exited
    ∧ exA4.startRuns 0 = 1
    ∧ exA4.stopRuns 0 = 0 :=
  ⟨teardownA, rfl, rfl, rfl⟩

/-- Witness for C4 at trace A: teardown completed with nothing dropped. -/
theorem c4_witness :
    exA4.tasks = [] ∧ ∀ t ∈ exA4.enqueued, t ∈ exA4.executed :=
  (c4_exit_only_after_drain (by decide) reachA).2 teardownA

/-- Witness for C6 at trace B: while executing task 0 the worker holds no
lock. -/
theorem c6_witness : exB5.lockHolder ≠ some 0 :=
  c6_execution_never_holds_lock 0 0 reachB5 rfl

/-- Witness for C10 at trace B: at the check with the exit condition false,
the queue is non-empty. -/
theorem c10_witness : exB3.tasks ≠ [] :=
  c10_pop_branch_queue_nonempty 0 reachB3 rfl
    (by simp [exB3, exB2, exB1, exB0, initState])
